import Mathlib

/-!
Shallow embedding of `src/binder.cpp` (the koturno source bundler).

The C++ program hardcodes two manifests (`min_files`, `opt_files`) and two
output targets (`../koturno-min.js`, `../koturno-all.js`).  It truncates both
targets, opens them in append mode, then copies every `min_files` entry
line-by-line into both targets (each line re-terminated with `std::endl`,
plus one blank separator line per file), and every `opt_files` entry into the
`all` target only.  If an input fails to open it prints a diagnostic to
stderr and returns 1; otherwise it returns 0.

We embed the run as a generator of a trace of file-system events, and derive
observable file contents by folding the trace.  Input files are modelled by a
partial map from path to raw content (`none` = the open fails); `getline`
semantics are modelled by `getlineLines`.
-/

namespace Binder

/-- `"../koturno-min.js"` from `binder.cpp` line 51. -/
def koturno_min_file_path : String := "../koturno-min.js"

/-- `"../koturno-all.js"` from `binder.cpp` line 52. -/
def koturno_all_file_path : String := "../koturno-all.js"

/-- The `min_files` vector, `binder.cpp` lines 13-39. -/
def min_files : List String :=
  [ "./license-header.js"
  , "./geo/Directions.js"
  , "./geo/Vector.js"
  , "./geo/Vector2d.js"
  , "./Counters.js"
  , "./State.js"
  , "./action/Action.js"
  , "./action/Keyboard.js"
  , "./action/MouseButton.js"
  , "./action/Mouse.js"
  , "./action/ActionManager.js"
  , "./resource/SoundType.js"
  , "./resource/SoundManager.js"
  , "./resource/ImageManager.js"
  , "./painter/Painter.js"
  , "./painter/Painter2D.js"
  , "./scene/Transition.js"
  , "./scene/Scene.js"
  , "./scene/Scenes.js"
  , "./logger/LogLevel.js"
  , "./logger/Logger.js"
  , "./recorder/KeycodeBiDiMap.js"
  , "./recorder/SHA256.js"
  , "./recorder/Recorder.js"
  , "./Game.js" ]

/-- The `opt_files` vector, `binder.cpp` lines 40-50. -/
def opt_files : List String :=
  [ "./figure/Material.js"
  , "./figure/PhysicalType.js"
  , "./figure/Shape2d.js"
  , "./figure/Rect2d.js"
  , "./figure/Circle2d.js"
  , "./figure/Rigid2d.js"
  , "./util/KoturnoUtil.js"
  , "./util/StdTransFunc.js"
  , "./util/Tween.js" ]

/-- An input file system: raw content per path, `none` when the open fails. -/
def FS : Type := String → Option String

/-- Split a character list at every newline character; the result always has
one more piece than there are newlines. -/
def splitNl : List Char → List (List Char)
  | [] => [[]]
  | c :: cs =>
    if c = '\n' then [] :: splitNl cs
    else
      match splitNl cs with
      | [] => [[c]]
      | l :: ls => (c :: l) :: ls

/-- The successive values of `buf` produced by `while (getline(ifs, buf))` on a
text stream holding `s` (platform terminators already translated to a single
newline by the text-mode stream): split on the newline character, where a
trailing newline does not start an extra empty line, and an empty file yields
no lines at all. -/
def getlineLines (s : String) : List String :=
  let ps := (splitNl s.data).map fun l => String.mk l
  if ps.getLast? = some "" then ps.dropLast else ps

/-- One observable file-system event of a run. -/
inductive Ev where
  | truncate (target : String)
  | openOk (path : String)
  | openFail (path : String)
  | writeLine (target : String) (data : String)
  | errMsg (msg : String)
deriving DecidableEq, Repr

/-- `clean_file` (`binder.cpp` lines 6-10): open an `ofstream` on `path`
(which truncates it) and close it again. -/
def clean_file (path : String) : List Ev := [Ev.truncate path]

/-- The body of `while (getline(ifs, buf))` in the first loop
(`binder.cpp` lines 66-69): each line goes to `min_ofs` then to `all_ofs`,
re-terminated by `std::endl`. -/
def copyLoopBoth (lines : List String) : List Ev :=
  lines.flatMap fun buf =>
    [ Ev.writeLine koturno_min_file_path (buf ++ "\n")
    , Ev.writeLine koturno_all_file_path (buf ++ "\n") ]

/-- The body of `while (getline(ifs, buf))` in the second loop
(`binder.cpp` lines 81-83): each line goes to `all_ofs` only. -/
def copyLoopAll (lines : List String) : List Ev :=
  lines.map fun buf => Ev.writeLine koturno_all_file_path (buf ++ "\n")

/-- The first `for` loop over `min_files` (`binder.cpp` lines 60-73).
Returns the events emitted and whether the loop ran to completion
(`false` = `return 1` was taken). -/
def minLoop (fs : FS) : List String → List Ev × Bool
  | [] => ([], true)
  | f :: rest =>
    match fs f with
    | none => ([Ev.openFail f, Ev.errMsg "Failed to open a file."], false)
    | some c =>
      ((Ev.openOk f :: copyLoopBoth (getlineLines c)
        ++ [ Ev.writeLine koturno_min_file_path "\n"
           , Ev.writeLine koturno_all_file_path "\n" ]) ++ (minLoop fs rest).1,
       (minLoop fs rest).2)

/-- The second `for` loop over `opt_files` (`binder.cpp` lines 75-86). -/
def optLoop (fs : FS) : List String → List Ev × Bool
  | [] => ([], true)
  | f :: rest =>
    match fs f with
    | none => ([Ev.openFail f, Ev.errMsg "Failed to open a file."], false)
    | some c =>
      ((Ev.openOk f :: copyLoopAll (getlineLines c)
        ++ [Ev.writeLine koturno_all_file_path "\n"]) ++ (optLoop fs rest).1,
       (optLoop fs rest).2)

/-- `main` (`binder.cpp` lines 12-88): clean both targets, run the two loops,
return the emitted trace together with the exit code (1 on the early
`return 1`, 0 otherwise). -/
def binderMain (fs : FS) : List Ev × Nat :=
  let pre := clean_file koturno_min_file_path ++ clean_file koturno_all_file_path
  let r1 := minLoop fs min_files
  if r1.2 then
    let r2 := optLoop fs opt_files
    (pre ++ r1.1 ++ r2.1, if r2.2 then 0 else 1)
  else
    (pre ++ r1.1, 1)

/-- The event trace of a run. -/
def binderTrace (fs : FS) : List Ev := (binderMain fs).1

/-- The process exit code of a run. -/
def binderExit (fs : FS) : Nat := (binderMain fs).2

/-- Effect of one event on the content of the file at `target`, given a
writability predicate `wOk` for output writes (a failed low-level write — disk
full, permission denied — leaves the file unchanged; the program never
observes this). -/
def applyEv (wOk : String → Bool) (target : String) (c : String) : Ev → String
  | Ev.truncate t => if t = target then "" else c
  | Ev.writeLine t d => if t = target ∧ wOk t then c ++ d else c
  | _ => c

/-- Content of the file at `target` after running the events `evs` from prior
content `prev`, with write failures modelled by `wOk`. -/
def contentAfter (wOk : String → Bool) (target prev : String) (evs : List Ev) : String :=
  evs.foldl (applyEv wOk target) prev

/-- All output writes succeed. -/
def allOk : String → Bool := fun _ => true

/-- Content of the file at `target` after a run with no write failures. -/
def finalContent (target prev : String) (evs : List Ev) : String :=
  contentAfter allOk target prev evs

/-- The sequence of input paths on which an open was attempted, in order. -/
def opensOf (evs : List Ev) : List String :=
  evs.filterMap fun e =>
    match e with
    | Ev.openOk p => some p
    | Ev.openFail p => some p
    | _ => none

/-- Join a list of strings by plain concatenation. -/
def strJoin : List String → String
  | [] => ""
  | s :: rest => s ++ strJoin rest

/-- `content(f)`: the bytes the line-by-line copy emits for one input file
with raw content `c` — every `getline` line re-terminated with a newline. -/
def content (c : String) : String :=
  strJoin ((getlineLines c).map (fun l => l ++ "\n"))

/-- The bytes a whole manifest contributes to a target it feeds:
`content(f1) + "\n" + … + content(fn) + "\n"` (one blank separator line after
every file). -/
def manifestBytes (fs : FS) (files : List String) : String :=
  strJoin (files.map fun f => content ((fs f).getD "") ++ "\n")

/-- `true` iff some emitted output write hit a target on which low-level
writes fail under `wOk`. -/
def hasFailedWrite (wOk : String → Bool) (evs : List Ev) : Bool :=
  evs.any fun e =>
    match e with
    | Ev.writeLine t _ => !(wOk t)
    | _ => false

/-- The sequence of input paths the program opens when reading the given list
in order under fail-fast semantics: every path up to and including the first
one whose open fails. -/
def opensUpToFail (fs : FS) : List String → List String
  | [] => []
  | f :: rest =>
    match fs f with
    | none => [f]
    | some _ => f :: opensUpToFail fs rest

/-- `true` iff the event is a truncation. -/
def isTrunc : Ev → Bool
  | Ev.truncate _ => true
  | _ => false

/-- Input file system where every file opens and is empty. -/
def fsAllEmpty : FS := fun _ => some ""

/-- Input file system where every file opens with the two-line content
`"a\nb\n"`. -/
def fsTwoLines : FS := fun _ => some "a\nb\n"

/-- Input file system where the third `min_files` entry fails to open and
every other file is empty. -/
def fsFailMin3 : FS := fun p => if p = "./geo/Vector.js" then none else some ""

/-- Input file system where the first `opt_files` entry fails to open and
every other file opens with one line. -/
def fsFailOpt1 : FS := fun p => if p = "./figure/Material.js" then none else some "x"

/-- Writability predicate under which every low-level output write fails. -/
def neverOk : String → Bool := fun _ => false

/-- The file path an event mutates, if any. -/
def evTarget : Ev → Option String
  | Ev.truncate t => some t
  | Ev.writeLine t _ => some t
  | _ => none

/-- Invariant of every event the two copy loops emit: never a truncation, and
every write goes to one of the two declared targets with newline-terminated
data. -/
def loopEvOK : Ev → Prop
  | Ev.truncate _ => False
  | Ev.writeLine t d =>
      (t = koturno_min_file_path ∨ t = koturno_all_file_path) ∧ ∃ l, d = l ++ "\n"
  | _ => True

/-! ### Basic lemmas about event application -/

theorem minP_ne_allP : koturno_min_file_path ≠ koturno_all_file_path := by decide

theorem allP_ne_minP : koturno_all_file_path ≠ koturno_min_file_path := by decide

theorem applyEv_write_self (w : String → Bool) (t c d : String) (hw : w t = true) :
    applyEv w t c (Ev.writeLine t d) = c ++ d := by
  simp [applyEv, hw]

theorem applyEv_write_ne (w : String → Bool) (t t' c d : String) (h : t' ≠ t) :
    applyEv w t c (Ev.writeLine t' d) = c := by
  simp [applyEv, h]

theorem applyEv_trunc_self (w : String → Bool) (t c : String) :
    applyEv w t c (Ev.truncate t) = "" := by
  simp [applyEv]

theorem applyEv_trunc_ne (w : String → Bool) (t t' c : String) (h : t' ≠ t) :
    applyEv w t c (Ev.truncate t') = c := by
  simp [applyEv, h]

@[simp] theorem applyEv_openOk (w : String → Bool) (t c p : String) :
    applyEv w t c (Ev.openOk p) = c := rfl

@[simp] theorem applyEv_openFail (w : String → Bool) (t c p : String) :
    applyEv w t c (Ev.openFail p) = c := rfl

@[simp] theorem applyEv_errMsg (w : String → Bool) (t c m : String) :
    applyEv w t c (Ev.errMsg m) = c := rfl

@[simp] theorem contentAfter_nil (w : String → Bool) (t p : String) :
    contentAfter w t p [] = p := rfl

theorem contentAfter_cons (w : String → Bool) (t p : String) (e : Ev) (evs : List Ev) :
    contentAfter w t p (e :: evs) = contentAfter w t (applyEv w t p e) evs := rfl

theorem contentAfter_append (w : String → Bool) (t p : String) (l1 l2 : List Ev) :
    contentAfter w t p (l1 ++ l2) = contentAfter w t (contentAfter w t p l1) l2 := by
  simp [contentAfter]

/-! ### Content written by the copy loops -/

theorem copyLoopBoth_content_min (L : List String) (p : String) :
    contentAfter allOk koturno_min_file_path p (copyLoopBoth L)
      = p ++ strJoin (L.map fun l => l ++ "\n") := by
  induction L generalizing p with
  | nil => simp [copyLoopBoth, strJoin]
  | cons l L ih =>
    have h1 : copyLoopBoth (l :: L)
        = Ev.writeLine koturno_min_file_path (l ++ "\n")
          :: Ev.writeLine koturno_all_file_path (l ++ "\n") :: copyLoopBoth L := rfl
    rw [h1, contentAfter_cons, contentAfter_cons,
      applyEv_write_self _ _ _ _ rfl,
      applyEv_write_ne _ _ _ _ _ allP_ne_minP, ih]
    simp [strJoin, String.append_assoc]

theorem copyLoopBoth_content_all (L : List String) (p : String) :
    contentAfter allOk koturno_all_file_path p (copyLoopBoth L)
      = p ++ strJoin (L.map fun l => l ++ "\n") := by
  induction L generalizing p with
  | nil => simp [copyLoopBoth, strJoin]
  | cons l L ih =>
    have h1 : copyLoopBoth (l :: L)
        = Ev.writeLine koturno_min_file_path (l ++ "\n")
          :: Ev.writeLine koturno_all_file_path (l ++ "\n") :: copyLoopBoth L := rfl
    rw [h1, contentAfter_cons, contentAfter_cons,
      applyEv_write_ne _ _ _ _ _ minP_ne_allP,
      applyEv_write_self _ _ _ _ rfl, ih]
    simp [strJoin, String.append_assoc]

theorem copyLoopAll_content_all (L : List String) (p : String) :
    contentAfter allOk koturno_all_file_path p (copyLoopAll L)
      = p ++ strJoin (L.map fun l => l ++ "\n") := by
  induction L generalizing p with
  | nil => simp [copyLoopAll, strJoin]
  | cons l L ih =>
    have h1 : copyLoopAll (l :: L)
        = Ev.writeLine koturno_all_file_path (l ++ "\n") :: copyLoopAll L := rfl
    rw [h1, contentAfter_cons, applyEv_write_self _ _ _ _ rfl, ih]
    simp [strJoin, String.append_assoc]

theorem copyLoopAll_content_min (L : List String) (p : String) :
    contentAfter allOk koturno_min_file_path p (copyLoopAll L) = p := by
  induction L generalizing p with
  | nil => simp [copyLoopAll]
  | cons l L ih =>
    have h1 : copyLoopAll (l :: L)
        = Ev.writeLine koturno_all_file_path (l ++ "\n") :: copyLoopAll L := rfl
    rw [h1, contentAfter_cons, applyEv_write_ne _ _ _ _ _ allP_ne_minP, ih]

/-- Effect of the two per-file separator writes of the first loop on the
`min` target. -/
theorem seps_both_min (q : String) :
    contentAfter allOk koturno_min_file_path q
      [ Ev.writeLine koturno_min_file_path "\n"
      , Ev.writeLine koturno_all_file_path "\n" ] = q ++ "\n" := by
  rw [contentAfter_cons, applyEv_write_self _ _ _ _ rfl, contentAfter_cons,
    applyEv_write_ne _ _ _ _ _ allP_ne_minP, contentAfter_nil]

/-- Effect of the two per-file separator writes of the first loop on the
`all` target. -/
theorem seps_both_all (q : String) :
    contentAfter allOk koturno_all_file_path q
      [ Ev.writeLine koturno_min_file_path "\n"
      , Ev.writeLine koturno_all_file_path "\n" ] = q ++ "\n" := by
  rw [contentAfter_cons, applyEv_write_ne _ _ _ _ _ minP_ne_allP, contentAfter_cons,
    applyEv_write_self _ _ _ _ rfl, contentAfter_nil]

/-- Effect of the per-file separator write of the second loop on the `all`
target. -/
theorem sep_all_all (q : String) :
    contentAfter allOk koturno_all_file_path q
      [Ev.writeLine koturno_all_file_path "\n"] = q ++ "\n" := by
  rw [contentAfter_cons, applyEv_write_self _ _ _ _ rfl, contentAfter_nil]

/-- The separator write of the second loop does not touch the `min` target. -/
theorem sep_all_min (q : String) :
    contentAfter allOk koturno_min_file_path q
      [Ev.writeLine koturno_all_file_path "\n"] = q := by
  rw [contentAfter_cons, applyEv_write_ne _ _ _ _ _ allP_ne_minP, contentAfter_nil]

/-! ### The two manifest loops: completion flag and written content -/

theorem minLoop_ok_iff (fs : FS) (files : List String) :
    (minLoop fs files).2 = true ↔ ∀ f ∈ files, (fs f).isSome := by
  induction files with
  | nil => simp [minLoop]
  | cons f rest ih =>
    cases hc : fs f with
    | none => simp [minLoop, hc]
    | some c => simp [minLoop, hc, ih]

theorem optLoop_ok_iff (fs : FS) (files : List String) :
    (optLoop fs files).2 = true ↔ ∀ f ∈ files, (fs f).isSome := by
  induction files with
  | nil => simp [optLoop]
  | cons f rest ih =>
    cases hc : fs f with
    | none => simp [optLoop, hc]
    | some c => simp [optLoop, hc, ih]

theorem manifestBytes_cons (fs : FS) (f : String) (rest : List String) :
    manifestBytes fs (f :: rest)
      = (content ((fs f).getD "") ++ "\n") ++ manifestBytes fs rest := rfl

theorem minLoop_content_min (fs : FS) (files : List String)
    (h : ∀ f ∈ files, (fs f).isSome) (p : String) :
    contentAfter allOk koturno_min_file_path p (minLoop fs files).1
      = p ++ manifestBytes fs files := by
  induction files generalizing p with
  | nil => simp [minLoop, manifestBytes, strJoin]
  | cons f rest ih =>
    obtain ⟨c, hc⟩ := Option.isSome_iff_exists.mp (h f (by simp))
    have hrest : ∀ g ∈ rest, (fs g).isSome := fun g hg => h g (by simp [hg])
    have h1 : (minLoop fs (f :: rest)).1
        = (Ev.openOk f :: copyLoopBoth (getlineLines c)
            ++ [ Ev.writeLine koturno_min_file_path "\n"
               , Ev.writeLine koturno_all_file_path "\n" ]) ++ (minLoop fs rest).1 := by
      simp [minLoop, hc]
    rw [h1, contentAfter_append, contentAfter_append, seps_both_min,
      contentAfter_cons, applyEv_openOk, copyLoopBoth_content_min,
      ih hrest, manifestBytes_cons, hc]
    simp [content, Option.getD, String.append_assoc]

theorem minLoop_content_all (fs : FS) (files : List String)
    (h : ∀ f ∈ files, (fs f).isSome) (p : String) :
    contentAfter allOk koturno_all_file_path p (minLoop fs files).1
      = p ++ manifestBytes fs files := by
  induction files generalizing p with
  | nil => simp [minLoop, manifestBytes, strJoin]
  | cons f rest ih =>
    obtain ⟨c, hc⟩ := Option.isSome_iff_exists.mp (h f (by simp))
    have hrest : ∀ g ∈ rest, (fs g).isSome := fun g hg => h g (by simp [hg])
    have h1 : (minLoop fs (f :: rest)).1
        = (Ev.openOk f :: copyLoopBoth (getlineLines c)
            ++ [ Ev.writeLine koturno_min_file_path "\n"
               , Ev.writeLine koturno_all_file_path "\n" ]) ++ (minLoop fs rest).1 := by
      simp [minLoop, hc]
    rw [h1, contentAfter_append, contentAfter_append, seps_both_all,
      contentAfter_cons, applyEv_openOk, copyLoopBoth_content_all,
      ih hrest, manifestBytes_cons, hc]
    simp [content, Option.getD, String.append_assoc]

theorem optLoop_content_all (fs : FS) (files : List String)
    (h : ∀ f ∈ files, (fs f).isSome) (p : String) :
    contentAfter allOk koturno_all_file_path p (optLoop fs files).1
      = p ++ manifestBytes fs files := by
  induction files generalizing p with
  | nil => simp [optLoop, manifestBytes, strJoin]
  | cons f rest ih =>
    obtain ⟨c, hc⟩ := Option.isSome_iff_exists.mp (h f (by simp))
    have hrest : ∀ g ∈ rest, (fs g).isSome := fun g hg => h g (by simp [hg])
    have h1 : (optLoop fs (f :: rest)).1
        = (Ev.openOk f :: copyLoopAll (getlineLines c)
            ++ [Ev.writeLine koturno_all_file_path "\n"]) ++ (optLoop fs rest).1 := by
      simp [optLoop, hc]
    rw [h1, contentAfter_append, contentAfter_append, sep_all_all,
      contentAfter_cons, applyEv_openOk, copyLoopAll_content_all,
      ih hrest, manifestBytes_cons, hc]
    simp [content, Option.getD, String.append_assoc]

theorem optLoop_content_min (fs : FS) (files : List String) (p : String) :
    contentAfter allOk koturno_min_file_path p (optLoop fs files).1 = p := by
  induction files generalizing p with
  | nil => simp [optLoop]
  | cons f rest ih =>
    cases hc : fs f with
    | none =>
      have h1 : (optLoop fs (f :: rest)).1
          = [Ev.openFail f, Ev.errMsg "Failed to open a file."] := by
        simp [optLoop, hc]
      rw [h1, contentAfter_cons, applyEv_openFail, contentAfter_cons,
        applyEv_errMsg, contentAfter_nil]
    | some c =>
      have h1 : (optLoop fs (f :: rest)).1
          = (Ev.openOk f :: copyLoopAll (getlineLines c)
              ++ [Ev.writeLine koturno_all_file_path "\n"]) ++ (optLoop fs rest).1 := by
        simp [optLoop, hc]
      rw [h1, contentAfter_append, contentAfter_append, sep_all_min,
        contentAfter_cons, applyEv_openOk, copyLoopAll_content_min, ih]

/-! ### Fail-fast behaviour of the loops -/

theorem minLoop_fail_errMsg (fs : FS) (files : List String)
    (h : (minLoop fs files).2 = false) :
    Ev.errMsg "Failed to open a file." ∈ (minLoop fs files).1 := by
  induction files with
  | nil => simp [minLoop] at h
  | cons f rest ih =>
    cases hc : fs f with
    | none => simp [minLoop, hc]
    | some c =>
      have h2 : (minLoop fs rest).2 = false := by simpa [minLoop, hc] using h
      simp [minLoop, hc, ih h2]

theorem optLoop_fail_errMsg (fs : FS) (files : List String)
    (h : (optLoop fs files).2 = false) :
    Ev.errMsg "Failed to open a file." ∈ (optLoop fs files).1 := by
  induction files with
  | nil => simp [optLoop] at h
  | cons f rest ih =>
    cases hc : fs f with
    | none => simp [optLoop, hc]
    | some c =>
      have h2 : (optLoop fs rest).2 = false := by simpa [optLoop, hc] using h
      simp [optLoop, hc, ih h2]

/-! ### Which input files get opened -/

theorem opensOf_append (l1 l2 : List Ev) :
    opensOf (l1 ++ l2) = opensOf l1 ++ opensOf l2 := by
  simp [opensOf]

theorem opensOf_copyLoopBoth (L : List String) : opensOf (copyLoopBoth L) = [] := by
  induction L with
  | nil => rfl
  | cons l L ih =>
    have h1 : copyLoopBoth (l :: L)
        = Ev.writeLine koturno_min_file_path (l ++ "\n")
          :: Ev.writeLine koturno_all_file_path (l ++ "\n") :: copyLoopBoth L := rfl
    rw [h1]
    simpa [opensOf] using ih

theorem opensOf_copyLoopAll (L : List String) : opensOf (copyLoopAll L) = [] := by
  induction L with
  | nil => rfl
  | cons l L ih =>
    have h1 : copyLoopAll (l :: L)
        = Ev.writeLine koturno_all_file_path (l ++ "\n") :: copyLoopAll L := rfl
    rw [h1]
    simpa [opensOf] using ih

theorem opensOf_cons_openOk (p : String) (evs : List Ev) :
    opensOf (Ev.openOk p :: evs) = p :: opensOf evs := by
  simp [opensOf]

theorem opensOf_minLoop (fs : FS) (files : List String) :
    opensOf (minLoop fs files).1 = opensUpToFail fs files := by
  induction files with
  | nil => rfl
  | cons f rest ih =>
    cases hc : fs f with
    | none => simp [minLoop, hc, opensUpToFail, opensOf]
    | some c =>
      have h1 : (minLoop fs (f :: rest)).1
          = (Ev.openOk f :: copyLoopBoth (getlineLines c)
              ++ [ Ev.writeLine koturno_min_file_path "\n"
                 , Ev.writeLine koturno_all_file_path "\n" ]) ++ (minLoop fs rest).1 := by
        simp [minLoop, hc]
      rw [h1, opensOf_append, opensOf_append, opensOf_cons_openOk,
        opensOf_copyLoopBoth, ih]
      simp [opensUpToFail, hc, opensOf]

theorem opensOf_optLoop (fs : FS) (files : List String) :
    opensOf (optLoop fs files).1 = opensUpToFail fs files := by
  induction files with
  | nil => rfl
  | cons f rest ih =>
    cases hc : fs f with
    | none => simp [optLoop, hc, opensUpToFail, opensOf]
    | some c =>
      have h1 : (optLoop fs (f :: rest)).1
          = (Ev.openOk f :: copyLoopAll (getlineLines c)
              ++ [Ev.writeLine koturno_all_file_path "\n"]) ++ (optLoop fs rest).1 := by
        simp [optLoop, hc]
      rw [h1, opensOf_append, opensOf_append, opensOf_cons_openOk,
        opensOf_copyLoopAll, ih]
      simp [opensUpToFail, hc, opensOf]

theorem opensUpToFail_all_ok (fs : FS) (l : List String)
    (h : ∀ g ∈ l, (fs g).isSome) : opensUpToFail fs l = l := by
  induction l with
  | nil => rfl
  | cons g l ih =>
    obtain ⟨c, hc⟩ := Option.isSome_iff_exists.mp (h g (by simp))
    simp [opensUpToFail, hc, ih (fun x hx => h x (by simp [hx]))]

theorem opensUpToFail_append_ok (fs : FS) (l1 l2 : List String)
    (h : ∀ g ∈ l1, (fs g).isSome) :
    opensUpToFail fs (l1 ++ l2) = l1 ++ opensUpToFail fs l2 := by
  induction l1 with
  | nil => rfl
  | cons g l1 ih =>
    obtain ⟨c, hc⟩ := Option.isSome_iff_exists.mp (h g (by simp))
    simp [opensUpToFail, hc, ih (fun x hx => h x (by simp [hx]))]

theorem opensUpToFail_append_fail (fs : FS) (l1 l2 : List String)
    (h : ¬ ∀ g ∈ l1, (fs g).isSome) :
    opensUpToFail fs (l1 ++ l2) = opensUpToFail fs l1 := by
  induction l1 with
  | nil => exact absurd (by simp) h
  | cons g l1 ih =>
    cases hc : fs g with
    | none => simp [opensUpToFail, hc]
    | some c =>
      have h2 : ¬ ∀ x ∈ l1, (fs x).isSome := by
        intro hx
        refine h ?_
        intro y hy
        rcases List.mem_cons.mp hy with h3 | h3
        · rw [h3, hc]; rfl
        · exact hx y h3
      simp [opensUpToFail, hc, ih h2]

theorem opensUpToFail_fail_decomp (fs : FS) (pre : List String) (f : String)
    (post : List String) (hpre : ∀ g ∈ pre, (fs g).isSome) (hf : fs f = none) :
    opensUpToFail fs (pre ++ f :: post) = pre ++ [f] := by
  rw [opensUpToFail_append_ok fs pre _ hpre]
  simp [opensUpToFail, hf]

/-! ### Shape of the whole trace -/

theorem binderTrace_ok (fs : FS) (hok : (minLoop fs min_files).2 = true) :
    binderTrace fs
      = ([ Ev.truncate koturno_min_file_path, Ev.truncate koturno_all_file_path ]
          ++ (minLoop fs min_files).1) ++ (optLoop fs opt_files).1 := by
  simp [binderTrace, binderMain, clean_file, hok]

theorem binderTrace_fail (fs : FS) (hok : (minLoop fs min_files).2 = false) :
    binderTrace fs
      = [ Ev.truncate koturno_min_file_path, Ev.truncate koturno_all_file_path ]
          ++ (minLoop fs min_files).1 := by
  simp [binderTrace, binderMain, clean_file, hok]

theorem binderExit_zero_iff (fs : FS) :
    binderExit fs = 0 ↔ ∀ f ∈ min_files ++ opt_files, (fs f).isSome := by
  by_cases h1 : (minLoop fs min_files).2 = true
  · by_cases h2 : (optLoop fs opt_files).2 = true
    · simp only [binderExit, binderMain, h1, h2, if_true]
      constructor
      · intro _
        intro f hf
        rcases List.mem_append.mp hf with h3 | h3
        · exact (minLoop_ok_iff fs min_files).mp h1 f h3
        · exact (optLoop_ok_iff fs opt_files).mp h2 f h3
      · intro _; trivial
    · have h2f : (optLoop fs opt_files).2 = false := by
        simpa using h2
      simp only [binderExit, binderMain, h1, h2f, if_true, if_false]
      constructor
      · intro h3; exact absurd h3 (by simp)
      · intro h3
        exact absurd ((optLoop_ok_iff fs opt_files).mpr
          (fun f hf => h3 f (List.mem_append_right _ hf))) (by simp [h2f])
  · have h1f : (minLoop fs min_files).2 = false := by simpa using h1
    simp only [binderExit, binderMain, h1f, if_false]
    constructor
    · intro h3; exact absurd h3 (by simp)
    · intro h3
      exact absurd ((minLoop_ok_iff fs min_files).mpr
        (fun f hf => h3 f (List.mem_append_left _ hf))) (by simp [h1f])

theorem binderExit_zero_or_one (fs : FS) : binderExit fs = 0 ∨ binderExit fs = 1 := by
  by_cases h1 : (minLoop fs min_files).2 = true
  · by_cases h2 : (optLoop fs opt_files).2 = true
    · left; simp [binderExit, binderMain, h1, h2]
    · right; simp [binderExit, binderMain, h1, h2]
  · right; simp [binderExit, binderMain, h1]

/-! ### Effect of the initial truncations -/

theorem truncs_min (p : String) :
    contentAfter allOk koturno_min_file_path p
      [ Ev.truncate koturno_min_file_path, Ev.truncate koturno_all_file_path ] = "" := by
  rw [contentAfter_cons, applyEv_trunc_self, contentAfter_cons,
    applyEv_trunc_ne _ _ _ _ allP_ne_minP, contentAfter_nil]

theorem truncs_all (p : String) :
    contentAfter allOk koturno_all_file_path p
      [ Ev.truncate koturno_min_file_path, Ev.truncate koturno_all_file_path ] = "" := by
  rw [contentAfter_cons, applyEv_trunc_ne _ _ _ _ minP_ne_allP, contentAfter_cons,
    applyEv_trunc_self, contentAfter_nil]

/-! ### Success-run contents -/

theorem run_success_min (fs : FS) (h : ∀ f ∈ min_files, (fs f).isSome) (p : String) :
    finalContent koturno_min_file_path p (binderTrace fs)
      = manifestBytes fs min_files := by
  have hok : (minLoop fs min_files).2 = true := (minLoop_ok_iff fs min_files).mpr h
  rw [finalContent, binderTrace_ok fs hok, contentAfter_append, contentAfter_append,
    truncs_min, minLoop_content_min fs min_files h, optLoop_content_min]
  simp

theorem run_success_all (fs : FS) (hmin : ∀ f ∈ min_files, (fs f).isSome)
    (hopt : ∀ f ∈ opt_files, (fs f).isSome) (p : String) :
    finalContent koturno_all_file_path p (binderTrace fs)
      = manifestBytes fs min_files ++ manifestBytes fs opt_files := by
  have hok : (minLoop fs min_files).2 = true := (minLoop_ok_iff fs min_files).mpr hmin
  rw [finalContent, binderTrace_ok fs hok, contentAfter_append, contentAfter_append,
    truncs_all, minLoop_content_all fs min_files hmin,
    optLoop_content_all fs opt_files hopt]
  simp

/-! ### Structural invariants of the emitted events -/

theorem loopEvOK_copyLoopBoth (L : List String) : ∀ e ∈ copyLoopBoth L, loopEvOK e := by
  induction L with
  | nil => intro e he; simp [copyLoopBoth] at he
  | cons l L ih =>
    intro e he
    have h1 : copyLoopBoth (l :: L)
        = Ev.writeLine koturno_min_file_path (l ++ "\n")
          :: Ev.writeLine koturno_all_file_path (l ++ "\n") :: copyLoopBoth L := rfl
    rw [h1] at he
    rcases List.mem_cons.mp he with rfl | he2
    · exact ⟨Or.inl rfl, l, rfl⟩
    · rcases List.mem_cons.mp he2 with rfl | he3
      · exact ⟨Or.inr rfl, l, rfl⟩
      · exact ih e he3

theorem loopEvOK_copyLoopAll (L : List String) : ∀ e ∈ copyLoopAll L, loopEvOK e := by
  induction L with
  | nil => intro e he; simp [copyLoopAll] at he
  | cons l L ih =>
    intro e he
    have h1 : copyLoopAll (l :: L)
        = Ev.writeLine koturno_all_file_path (l ++ "\n") :: copyLoopAll L := rfl
    rw [h1] at he
    rcases List.mem_cons.mp he with rfl | he2
    · exact ⟨Or.inr rfl, l, rfl⟩
    · exact ih e he2

theorem loopEvOK_minLoop (fs : FS) (files : List String) :
    ∀ e ∈ (minLoop fs files).1, loopEvOK e := by
  induction files with
  | nil => intro e he; simp [minLoop] at he
  | cons f rest ih =>
    intro e he
    cases hc : fs f with
    | none =>
      have h1 : (minLoop fs (f :: rest)).1
          = [Ev.openFail f, Ev.errMsg "Failed to open a file."] := by
        simp [minLoop, hc]
      rw [h1] at he
      rcases List.mem_cons.mp he with rfl | he2
      · trivial
      · rcases List.mem_cons.mp he2 with rfl | he3
        · trivial
        · simp at he3
    | some c =>
      have h1 : (minLoop fs (f :: rest)).1
          = (Ev.openOk f :: copyLoopBoth (getlineLines c)
              ++ [ Ev.writeLine koturno_min_file_path "\n"
                 , Ev.writeLine koturno_all_file_path "\n" ]) ++ (minLoop fs rest).1 := by
        simp [minLoop, hc]
      rw [h1] at he
      rcases List.mem_append.mp he with he1 | he2
      · rcases List.mem_append.mp he1 with he3 | he4
        · rcases List.mem_cons.mp he3 with rfl | he5
          · trivial
          · exact loopEvOK_copyLoopBoth _ e he5
        · rcases List.mem_cons.mp he4 with rfl | he6
          · exact ⟨Or.inl rfl, "", rfl⟩
          · rcases List.mem_cons.mp he6 with rfl | he7
            · exact ⟨Or.inr rfl, "", rfl⟩
            · simp at he7
      · exact ih e he2

theorem loopEvOK_optLoop (fs : FS) (files : List String) :
    ∀ e ∈ (optLoop fs files).1, loopEvOK e := by
  induction files with
  | nil => intro e he; simp [optLoop] at he
  | cons f rest ih =>
    intro e he
    cases hc : fs f with
    | none =>
      have h1 : (optLoop fs (f :: rest)).1
          = [Ev.openFail f, Ev.errMsg "Failed to open a file."] := by
        simp [optLoop, hc]
      rw [h1] at he
      rcases List.mem_cons.mp he with rfl | he2
      · trivial
      · rcases List.mem_cons.mp he2 with rfl | he3
        · trivial
        · simp at he3
    | some c =>
      have h1 : (optLoop fs (f :: rest)).1
          = (Ev.openOk f :: copyLoopAll (getlineLines c)
              ++ [Ev.writeLine koturno_all_file_path "\n"]) ++ (optLoop fs rest).1 := by
        simp [optLoop, hc]
      rw [h1] at he
      rcases List.mem_append.mp he with he1 | he2
      · rcases List.mem_append.mp he1 with he3 | he4
        · rcases List.mem_cons.mp he3 with rfl | he5
          · trivial
          · exact loopEvOK_copyLoopAll _ e he5
        · rcases List.mem_cons.mp he4 with rfl | he6
          · exact ⟨Or.inr rfl, "", rfl⟩
          · simp at he6
      · exact ih e he2

/-- Every run's trace is the two initial truncations followed by loop events
only. -/
theorem binderTrace_decomp (fs : FS) :
    ∃ T, binderTrace fs
        = Ev.truncate koturno_min_file_path :: Ev.truncate koturno_all_file_path :: T
      ∧ ∀ e ∈ T, loopEvOK e := by
  by_cases hok : (minLoop fs min_files).2 = true
  · refine ⟨(minLoop fs min_files).1 ++ (optLoop fs opt_files).1, ?_, ?_⟩
    · rw [binderTrace_ok fs hok]
      simp
    · intro e he
      rcases List.mem_append.mp he with h1 | h2
      · exact loopEvOK_minLoop fs min_files e h1
      · exact loopEvOK_optLoop fs opt_files e h2
  · have hf : (minLoop fs min_files).2 = false := by simpa using hok
    refine ⟨(minLoop fs min_files).1, ?_, ?_⟩
    · rw [binderTrace_fail fs hf]
      simp
    · exact loopEvOK_minLoop fs min_files

theorem applyEv_unchanged_of_loopEvOK (e : Ev) (h : loopEvOK e) (path : String)
    (h1 : path ≠ koturno_min_file_path) (h2 : path ≠ koturno_all_file_path)
    (w : String → Bool) (c : String) : applyEv w path c e = c := by
  cases e with
  | truncate t => exact absurd h (by simp [loopEvOK])
  | writeLine t d =>
    obtain ⟨ht, _⟩ := h
    rcases ht with rfl | rfl
    · exact applyEv_write_ne _ _ _ _ _ (Ne.symm h1)
    · exact applyEv_write_ne _ _ _ _ _ (Ne.symm h2)
  | openOk p => rfl
  | openFail p => rfl
  | errMsg m => rfl

theorem contentAfter_invariant (w : String → Bool) (path p : String) (evs : List Ev)
    (h : ∀ e ∈ evs, ∀ c, applyEv w path c e = c) : contentAfter w path p evs = p := by
  induction evs generalizing p with
  | nil => rfl
  | cons e evs ih =>
    rw [contentAfter_cons, h e (by simp) p]
    exact ih p fun x hx c => h x (by simp [hx]) c

/-! ### Splitting the first loop at a file -/

theorem minLoop_append_ok (fs : FS) (l1 l2 : List String)
    (h : ∀ g ∈ l1, (fs g).isSome) :
    (minLoop fs (l1 ++ l2)).1 = (minLoop fs l1).1 ++ (minLoop fs l2).1 := by
  induction l1 with
  | nil => simp [minLoop]
  | cons g l1 ih =>
    obtain ⟨c, hc⟩ := Option.isSome_iff_exists.mp (h g (by simp))
    have ih2 := ih fun x hx => h x (by simp [hx])
    simp [minLoop, hc, ih2]

theorem optLoop_append_ok (fs : FS) (l1 l2 : List String)
    (h : ∀ g ∈ l1, (fs g).isSome) :
    (optLoop fs (l1 ++ l2)).1 = (optLoop fs l1).1 ++ (optLoop fs l2).1 := by
  induction l1 with
  | nil => simp [optLoop]
  | cons g l1 ih =>
    obtain ⟨c, hc⟩ := Option.isSome_iff_exists.mp (h g (by simp))
    have ih2 := ih fun x hx => h x (by simp [hx])
    simp [optLoop, hc, ih2]

/-! ### All-empty inputs -/

theorem manifestBytes_all_empty (fs : FS) (files : List String)
    (h : ∀ f ∈ files, fs f = some "") :
    manifestBytes fs files = strJoin (List.replicate files.length "\n") := by
  induction files with
  | nil => rfl
  | cons f rest ih =>
    have h0 : content "" = "" := by decide
    rw [manifestBytes_cons, h f (by simp), ih (fun g hg => h g (by simp [hg]))]
    simp [h0, strJoin, List.replicate]

theorem strJoin_append (l1 l2 : List String) :
    strJoin (l1 ++ l2) = strJoin l1 ++ strJoin l2 := by
  induction l1 with
  | nil => simp [strJoin]
  | cons s l1 ih => simp [strJoin, ih, String.append_assoc]

/-! ### Exit status characterisation -/

theorem binderExit_one_iff (fs : FS) :
    binderExit fs = 1 ↔ ∃ g ∈ min_files ++ opt_files, fs g = none := by
  have h0 := binderExit_zero_iff fs
  have hne : binderExit fs = 1 ↔ ¬ binderExit fs = 0 := by
    rcases binderExit_zero_or_one fs with h | h <;> simp [h]
  rw [hne, h0]
  simp [Option.isSome_iff_ne_none]

theorem errMsg_of_exit_one (fs : FS) (h : binderExit fs = 1) :
    Ev.errMsg "Failed to open a file." ∈ binderTrace fs := by
  by_cases hok : (minLoop fs min_files).2 = true
  · have h2 : (optLoop fs opt_files).2 = false := by
      by_contra h3
      have h4 : (optLoop fs opt_files).2 = true := by simpa using h3
      simp [binderExit, binderMain, hok, h4] at h
    rw [binderTrace_ok fs hok]
    exact List.mem_append_right _ (optLoop_fail_errMsg fs opt_files h2)
  · have hf : (minLoop fs min_files).2 = false := by simpa using hok
    rw [binderTrace_fail fs hf]
    exact List.mem_append_right _ (minLoop_fail_errMsg fs min_files hf)

theorem opensOf_binderTrace (fs : FS) :
    opensOf (binderTrace fs) = opensUpToFail fs (min_files ++ opt_files) := by
  by_cases hok : (minLoop fs min_files).2 = true
  · have hall : ∀ f ∈ min_files, (fs f).isSome := (minLoop_ok_iff fs min_files).mp hok
    rw [binderTrace_ok fs hok, opensOf_append, opensOf_append, opensOf_minLoop,
      opensOf_optLoop, opensUpToFail_append_ok fs min_files opt_files hall,
      opensUpToFail_all_ok fs min_files hall]
    simp [opensOf]
  · have hf : (minLoop fs min_files).2 = false := by simpa using hok
    have hnall : ¬ ∀ f ∈ min_files, (fs f).isSome := by
      intro hx
      have := (minLoop_ok_iff fs min_files).mpr hx
      simp [hf] at this
    rw [binderTrace_fail fs hf, opensOf_append, opensOf_minLoop,
      opensUpToFail_append_fail fs min_files opt_files hnall]
    simp [opensOf]

/-! ### The claims -/

/-- Claim C1 (order preservation): for every assignment of contents to the
input files, on a successful run (exit code 0) the bytes of each output
target equal the ordered concatenation of its constituent manifests' file
contents in manifest order — `content(f1) + "\n" + … + content(fn) + "\n"` —
where each `content(fi)` ends with the terminating newline produced by the
line-by-line copy and one extra blank line follows every file; the `min`
target gets the `min_files` manifest and the `all` target gets `min_files`
followed by `opt_files`. -/
theorem bundler_order_preservation (fs : FS) (p q : String)
    (h : ∀ f ∈ min_files ++ opt_files, (fs f).isSome) :
    binderExit fs = 0
    ∧ finalContent koturno_min_file_path p (binderTrace fs) = manifestBytes fs min_files
    ∧ finalContent koturno_all_file_path q (binderTrace fs)
        = manifestBytes fs min_files ++ manifestBytes fs opt_files := by
  have hmin : ∀ f ∈ min_files, (fs f).isSome :=
    fun f hf => h f (List.mem_append_left _ hf)
  have hopt : ∀ f ∈ opt_files, (fs f).isSome :=
    fun f hf => h f (List.mem_append_right _ hf)
  exact ⟨(binderExit_zero_iff fs).mpr h, run_success_min fs hmin p,
    run_success_all fs hmin hopt q⟩

/-- Witness for C1 at a concrete file system where every input holds the two
lines `a`, `b`. -/
theorem bundler_order_preservation_witness :
    (∀ f ∈ min_files ++ opt_files, (fsTwoLines f).isSome)
    ∧ (binderExit fsTwoLines = 0
       ∧ finalContent koturno_min_file_path "old" (binderTrace fsTwoLines)
           = manifestBytes fsTwoLines min_files
       ∧ finalContent koturno_all_file_path "stale" (binderTrace fsTwoLines)
           = manifestBytes fsTwoLines min_files ++ manifestBytes fsTwoLines opt_files) :=
  ⟨by decide, bundler_order_preservation fsTwoLines "old" "stale" (by decide)⟩

/-- Claim C2 (multi-target fan-out): on a successful run both targets receive
byte-identical content for the shared `min` manifest in the same relative
position (the front), so the bytes of `koturno-all.js` equal the full bytes
of `koturno-min.js` followed by the opt manifest's contribution. -/
theorem bundler_multi_target_fanout (fs : FS) (p q : String)
    (h : ∀ f ∈ min_files ++ opt_files, (fs f).isSome) :
    finalContent koturno_all_file_path q (binderTrace fs)
      = finalContent koturno_min_file_path p (binderTrace fs)
        ++ manifestBytes fs opt_files
    ∧ finalContent koturno_min_file_path p (binderTrace fs)
        = manifestBytes fs min_files := by
  have hmin : ∀ f ∈ min_files, (fs f).isSome :=
    fun f hf => h f (List.mem_append_left _ hf)
  have hopt : ∀ f ∈ opt_files, (fs f).isSome :=
    fun f hf => h f (List.mem_append_right _ hf)
  have h1 := run_success_min fs hmin p
  have h2 := run_success_all fs hmin hopt q
  exact ⟨by rw [h1, h2], h1⟩

/-- Witness for C2 at a concrete file system where every input holds the two
lines `a`, `b`. -/
theorem bundler_multi_target_fanout_witness :
    (∀ f ∈ min_files ++ opt_files, (fsTwoLines f).isSome)
    ∧ (finalContent koturno_all_file_path "x" (binderTrace fsTwoLines)
         = finalContent koturno_min_file_path "y" (binderTrace fsTwoLines)
           ++ manifestBytes fsTwoLines opt_files
       ∧ finalContent koturno_min_file_path "y" (binderTrace fsTwoLines)
           = manifestBytes fsTwoLines min_files) :=
  ⟨by decide, bundler_multi_target_fanout fsTwoLines "y" "x" (by decide)⟩

/-- Claim C3 (fail-fast with distinguishable exit status): the run exits 0
iff every input file opens, exits 1 iff some input file fails to open, writes
the diagnostic line to the error stream on failure, and opens exactly the
files up to and including the first failing one — in particular, when the
read order decomposes as `pre ++ f :: post` with every file of `pre` opening
and `f` failing, the opened files are exactly `pre ++ [f]`, so nothing after
`f` is read. -/
theorem bundler_fail_fast_exit (fs : FS) :
    (binderExit fs = 0 ↔ ∀ g ∈ min_files ++ opt_files, (fs g).isSome)
    ∧ (binderExit fs = 1 ↔ ∃ g ∈ min_files ++ opt_files, fs g = none)
    ∧ (binderExit fs = 1 → Ev.errMsg "Failed to open a file." ∈ binderTrace fs)
    ∧ opensOf (binderTrace fs) = opensUpToFail fs (min_files ++ opt_files)
    ∧ (∀ pre f post, min_files ++ opt_files = pre ++ f :: post →
        (∀ g ∈ pre, (fs g).isSome) → fs f = none →
        opensOf (binderTrace fs) = pre ++ [f]) := by
  refine ⟨binderExit_zero_iff fs, binderExit_one_iff fs, errMsg_of_exit_one fs,
    opensOf_binderTrace fs, ?_⟩
  intro pre f post hdec hpre hf
  rw [opensOf_binderTrace fs, hdec, opensUpToFail_fail_decomp fs pre f post hpre hf]

/-- Witness for C3 at a file system where the third manifest entry fails to
open: the run exits 1 and reads exactly the first three entries. -/
theorem bundler_fail_fast_exit_witness :
    binderExit fsFailMin3 = 1
    ∧ Ev.errMsg "Failed to open a file." ∈ binderTrace fsFailMin3
    ∧ opensOf (binderTrace fsFailMin3)
        = ["./license-header.js", "./geo/Directions.js", "./geo/Vector.js"] := by
  have h := bundler_fail_fast_exit fsFailMin3
  have h1 : binderExit fsFailMin3 = 1 :=
    h.2.1.mpr ⟨"./geo/Vector.js", by decide, by decide⟩
  refine ⟨h1, h.2.2.1 h1, ?_⟩
  have h5 := h.2.2.2.2 ["./license-header.js", "./geo/Directions.js"]
    "./geo/Vector.js" ((min_files ++ opt_files).drop 3) (by decide) (by decide) (by decide)
  exact h5

/-- Claim C4 (eager global truncation): in every run — successful or failed —
the trace begins with the truncation of the `min` target then of the `all`
target, each target is truncated exactly once, and no truncation occurs after
those first two events, i.e. both truncations precede every content write. -/
theorem bundler_eager_truncation (fs : FS) :
    (binderTrace fs).take 2
        = [ Ev.truncate koturno_min_file_path, Ev.truncate koturno_all_file_path ]
    ∧ (binderTrace fs).count (Ev.truncate koturno_min_file_path) = 1
    ∧ (binderTrace fs).count (Ev.truncate koturno_all_file_path) = 1
    ∧ ∀ e ∈ (binderTrace fs).drop 2, isTrunc e = false := by
  obtain ⟨T, hT, hOK⟩ := binderTrace_decomp fs
  have hnt : ∀ e ∈ T, isTrunc e = false := by
    intro e he
    cases e with
    | truncate t => exact (hOK _ he).elim
    | openOk p => rfl
    | openFail p => rfl
    | writeLine t d => rfl
    | errMsg m => rfl
  have hzmin : T.count (Ev.truncate koturno_min_file_path) = 0 :=
    List.count_eq_zero.mpr fun hm => by have h2 := hnt _ hm; simp [isTrunc] at h2
  have hzall : T.count (Ev.truncate koturno_all_file_path) = 0 :=
    List.count_eq_zero.mpr fun hm => by have h2 := hnt _ hm; simp [isTrunc] at h2
  have hne1 : Ev.truncate koturno_all_file_path ≠ Ev.truncate koturno_min_file_path := by
    decide
  have hne2 : Ev.truncate koturno_min_file_path ≠ Ev.truncate koturno_all_file_path := by
    decide
  rw [hT]
  exact ⟨rfl, by simp [List.count_cons, hzmin, hne1],
    by simp [List.count_cons, hzall, hne2], hnt⟩

/-- Witness for C4 at a concrete failing run: both truncations still happen
first even though the run aborts on the third manifest entry. -/
theorem bundler_eager_truncation_witness :
    (binderTrace fsFailMin3).take 2
        = [ Ev.truncate koturno_min_file_path, Ev.truncate koturno_all_file_path ]
    ∧ (binderTrace fsFailMin3).count (Ev.truncate koturno_min_file_path) = 1
    ∧ (binderTrace fsFailMin3).count (Ev.truncate koturno_all_file_path) = 1
    ∧ isTrunc (Ev.openFail "./geo/Vector.js") = false := by
  have h := bundler_eager_truncation fsFailMin3
  exact ⟨h.1, h.2.1, h.2.2.1, h.2.2.2 (Ev.openFail "./geo/Vector.js") (by decide)⟩

/-- Claim C5 (idempotent re-run): for a fixed assignment of input contents
the produced bytes of both targets are independent of whatever content the
target files held before the run, so running the bundler twice in succession
produces byte-identical output both times. -/
theorem bundler_idempotent_rerun (fs : FS) (p q : String) :
    finalContent koturno_min_file_path p (binderTrace fs)
        = finalContent koturno_min_file_path q (binderTrace fs)
    ∧ finalContent koturno_all_file_path p (binderTrace fs)
        = finalContent koturno_all_file_path q (binderTrace fs)
    ∧ finalContent koturno_min_file_path
        (finalContent koturno_min_file_path p (binderTrace fs)) (binderTrace fs)
        = finalContent koturno_min_file_path p (binderTrace fs)
    ∧ finalContent koturno_all_file_path
        (finalContent koturno_all_file_path p (binderTrace fs)) (binderTrace fs)
        = finalContent koturno_all_file_path p (binderTrace fs) := by
  obtain ⟨T, hT, -⟩ := binderTrace_decomp fs
  have hm : ∀ r : String, finalContent koturno_min_file_path r (binderTrace fs)
      = contentAfter allOk koturno_min_file_path "" T := by
    intro r
    rw [hT, finalContent, contentAfter_cons, applyEv_trunc_self, contentAfter_cons,
      applyEv_trunc_ne _ _ _ _ allP_ne_minP]
  have ha : ∀ r : String, finalContent koturno_all_file_path r (binderTrace fs)
      = contentAfter allOk koturno_all_file_path "" T := by
    intro r
    rw [hT, finalContent, contentAfter_cons, applyEv_trunc_ne _ _ _ _ minP_ne_allP,
      contentAfter_cons, applyEv_trunc_self]
  exact ⟨(hm p).trans (hm q).symm, (ha p).trans (ha q).symm,
    (hm _).trans (hm p).symm, (ha _).trans (ha p).symm⟩

/-- Witness for C5: re-running on concrete two-line inputs reproduces the
first run's bytes even though the targets started out different. -/
theorem bundler_idempotent_rerun_witness :
    finalContent koturno_min_file_path "OLD" (binderTrace fsTwoLines)
        = finalContent koturno_min_file_path "" (binderTrace fsTwoLines)
    ∧ finalContent koturno_all_file_path "OLD" (binderTrace fsTwoLines)
        = finalContent koturno_all_file_path "" (binderTrace fsTwoLines)
    ∧ finalContent koturno_min_file_path
        (finalContent koturno_min_file_path "OLD" (binderTrace fsTwoLines))
        (binderTrace fsTwoLines)
        = finalContent koturno_min_file_path "OLD" (binderTrace fsTwoLines)
    ∧ finalContent koturno_all_file_path
        (finalContent koturno_all_file_path "OLD" (binderTrace fsTwoLines))
        (binderTrace fsTwoLines)
        = finalContent koturno_all_file_path "OLD" (binderTrace fsTwoLines) :=
  bundler_idempotent_rerun fsTwoLines "OLD" ""

/-- Claim C6 (line-terminator normalization): for every input file the copy
reaches, each `getline` line is written verbatim to every target its manifest
feeds, re-terminated with the output's own newline, followed by the blank
separator line — for a min-manifest file one write per line to the min target
then the all target, for an opt-manifest file (reached once the whole min
pass succeeded) one write per line to the all target; moreover every write of
the whole run carries newline-terminated data, so the input terminator style
never reaches the output. -/
theorem bundler_line_normalization (fs : FS) :
    (∀ pre f post c, min_files = pre ++ f :: post →
        (∀ g ∈ pre, (fs g).isSome) → fs f = some c →
        ∃ evs1 evs2, binderTrace fs
          = evs1
            ++ (Ev.openOk f :: (getlineLines c).flatMap (fun l =>
                  [ Ev.writeLine koturno_min_file_path (l ++ "\n")
                  , Ev.writeLine koturno_all_file_path (l ++ "\n") ])
                ++ [ Ev.writeLine koturno_min_file_path "\n"
                   , Ev.writeLine koturno_all_file_path "\n" ])
            ++ evs2)
    ∧ (∀ pre f post c, opt_files = pre ++ f :: post →
        (∀ g ∈ min_files, (fs g).isSome) →
        (∀ g ∈ pre, (fs g).isSome) → fs f = some c →
        ∃ evs1 evs2, binderTrace fs
          = evs1
            ++ (Ev.openOk f :: (getlineLines c).map (fun l =>
                  Ev.writeLine koturno_all_file_path (l ++ "\n"))
                ++ [Ev.writeLine koturno_all_file_path "\n"])
            ++ evs2)
    ∧ ∀ t d, Ev.writeLine t d ∈ binderTrace fs → ∃ l, d = l ++ "\n" := by
  refine ⟨?_, ?_, ?_⟩
  · intro pre f post c hdec hpre hc
    have hhead : (minLoop fs (f :: post)).1
        = (Ev.openOk f :: copyLoopBoth (getlineLines c)
            ++ [ Ev.writeLine koturno_min_file_path "\n"
               , Ev.writeLine koturno_all_file_path "\n" ]) ++ (minLoop fs post).1 := by
      simp [minLoop, hc]
    by_cases hok : (minLoop fs min_files).2 = true
    · refine ⟨[ Ev.truncate koturno_min_file_path, Ev.truncate koturno_all_file_path ]
          ++ (minLoop fs pre).1,
        (minLoop fs post).1 ++ (optLoop fs opt_files).1, ?_⟩
      rw [binderTrace_ok fs hok, hdec, minLoop_append_ok fs pre (f :: post) hpre, hhead]
      simp [copyLoopBoth, List.append_assoc]
    · have hf2 : (minLoop fs min_files).2 = false := by simpa using hok
      refine ⟨[ Ev.truncate koturno_min_file_path, Ev.truncate koturno_all_file_path ]
          ++ (minLoop fs pre).1, (minLoop fs post).1, ?_⟩
      rw [binderTrace_fail fs hf2, hdec, minLoop_append_ok fs pre (f :: post) hpre, hhead]
      simp [copyLoopBoth, List.append_assoc]
  · intro pre f post c hdec hmin hpre hc
    have hok : (minLoop fs min_files).2 = true := (minLoop_ok_iff fs min_files).mpr hmin
    have hhead : (optLoop fs (f :: post)).1
        = (Ev.openOk f :: copyLoopAll (getlineLines c)
            ++ [Ev.writeLine koturno_all_file_path "\n"]) ++ (optLoop fs post).1 := by
      simp [optLoop, hc]
    refine ⟨([ Ev.truncate koturno_min_file_path, Ev.truncate koturno_all_file_path ]
        ++ (minLoop fs min_files).1) ++ (optLoop fs pre).1, (optLoop fs post).1, ?_⟩
    rw [binderTrace_ok fs hok, hdec, optLoop_append_ok fs pre (f :: post) hpre, hhead]
    simp [copyLoopAll, List.append_assoc]
  · intro t d hmem
    obtain ⟨T, hT, hOK⟩ := binderTrace_decomp fs
    rw [hT] at hmem
    rcases List.mem_cons.mp hmem with h1 | h1
    · exact Ev.noConfusion h1
    · rcases List.mem_cons.mp h1 with h2 | h2
      · exact Ev.noConfusion h2
      · exact (hOK _ h2).2

/-- Witness for C6 at the first min-manifest entry and the first opt-manifest
entry, both with the concrete two-line content `a`, `b`. -/
theorem bundler_line_normalization_witness :
    (min_files = [] ++ "./license-header.js" :: min_files.tail
     ∧ fsTwoLines "./license-header.js" = some "a\nb\n"
     ∧ opt_files = [] ++ "./figure/Material.js" :: opt_files.tail
     ∧ fsTwoLines "./figure/Material.js" = some "a\nb\n")
    ∧ (∃ evs1 evs2, binderTrace fsTwoLines
        = evs1
          ++ (Ev.openOk "./license-header.js" :: (getlineLines "a\nb\n").flatMap (fun l =>
                [ Ev.writeLine koturno_min_file_path (l ++ "\n")
                , Ev.writeLine koturno_all_file_path (l ++ "\n") ])
              ++ [ Ev.writeLine koturno_min_file_path "\n"
                 , Ev.writeLine koturno_all_file_path "\n" ])
          ++ evs2)
    ∧ (∃ evs1 evs2, binderTrace fsTwoLines
        = evs1
          ++ (Ev.openOk "./figure/Material.js" :: (getlineLines "a\nb\n").map (fun l =>
                Ev.writeLine koturno_all_file_path (l ++ "\n"))
              ++ [Ev.writeLine koturno_all_file_path "\n"])
          ++ evs2)
    ∧ (∀ t d, Ev.writeLine t d ∈ binderTrace fsTwoLines → ∃ l, d = l ++ "\n") := by
  have h := bundler_line_normalization fsTwoLines
  refine ⟨⟨by decide, by decide, by decide, by decide⟩, ?_, ?_, h.2.2⟩
  · exact h.1 [] "./license-header.js" min_files.tail "a\nb\n"
      (by decide) (by simp) (by decide)
  · exact h.2.1 [] "./figure/Material.js" opt_files.tail "a\nb\n"
      (by decide) (by decide) (by simp) (by decide)

/-- Claim C7 is refuted by the code: a run in which every low-level output
write fails still returns exit status 0 (all inputs open, nothing checks the
output streams), instead of terminating as a fatal condition. -/
theorem bundler_write_failure_counterexample :
    hasFailedWrite neverOk (binderTrace fsAllEmpty) = true
    ∧ binderExit fsAllEmpty = 0 :=
  ⟨by decide, by decide⟩

/-- Claim C7 as amended: output-write failures are invisible to the program;
even in a run where some output write failed, the exit status is determined
solely by whether every input file opens — it is 0 exactly in that case, never
a distinct fatal status. -/
theorem bundler_write_failure_ignored (fs : FS) (wOk : String → Bool)
    ( _hw : hasFailedWrite wOk (binderTrace fs) = true) :
    binderExit fs = 0 ↔ ∀ g ∈ min_files ++ opt_files, (fs g).isSome :=
  binderExit_zero_iff fs

/-- Witness for the amended C7 at a run where every write fails. -/
theorem bundler_write_failure_ignored_witness :
    hasFailedWrite neverOk (binderTrace fsAllEmpty) = true
    ∧ (binderExit fsAllEmpty = 0
        ↔ ∀ g ∈ min_files ++ opt_files, (fsAllEmpty g).isSome) :=
  ⟨by decide, bundler_write_failure_ignored fsAllEmpty neverOk (by decide)⟩

/-- Claim C8 (input immutability): no run ever mutates any file other than
the two output targets; in particular the content of every input file listed
in the manifests is unchanged after the run, successful or failed. -/
theorem bundler_input_immutability (fs : FS) (path prev : String)
    (h1 : path ≠ koturno_min_file_path) (h2 : path ≠ koturno_all_file_path) :
    finalContent path prev (binderTrace fs) = prev
    ∧ ∀ f ∈ min_files ++ opt_files, ∀ pv : String,
        finalContent f pv (binderTrace fs) = pv := by
  have hne : ∀ f ∈ min_files ++ opt_files,
      f ≠ koturno_min_file_path ∧ f ≠ koturno_all_file_path := by decide
  have key : ∀ pa : String, pa ≠ koturno_min_file_path →
      pa ≠ koturno_all_file_path →
      ∀ pv : String, finalContent pa pv (binderTrace fs) = pv := by
    intro pa ha1 ha2 pv
    obtain ⟨T, hT, hOK⟩ := binderTrace_decomp fs
    rw [hT, finalContent, contentAfter_cons, applyEv_trunc_ne _ _ _ _ (Ne.symm ha1),
      contentAfter_cons, applyEv_trunc_ne _ _ _ _ (Ne.symm ha2)]
    exact contentAfter_invariant _ _ _ _
      fun e he c2 => applyEv_unchanged_of_loopEvOK e (hOK e he) pa ha1 ha2 _ c2
  exact ⟨key path h1 h2 prev, fun f hf pv => key f (hne f hf).1 (hne f hf).2 pv⟩

/-- Witness for C8: two concrete input paths keep their prior content across
a concrete run. -/
theorem bundler_input_immutability_witness :
    ("./Game.js" ≠ koturno_min_file_path ∧ "./Game.js" ≠ koturno_all_file_path)
    ∧ finalContent "./Game.js" "KEEP" (binderTrace fsTwoLines) = "KEEP"
    ∧ finalContent "./util/Tween.js" "KEEP2" (binderTrace fsTwoLines) = "KEEP2" := by
  have h := bundler_input_immutability fsTwoLines "./Game.js" "KEEP"
    (by decide) (by decide)
  exact ⟨⟨by decide, by decide⟩, h.1, h.2 "./util/Tween.js" (by decide) "KEEP2"⟩

/-- Claim C9 (implicit): if every min-manifest file opens but some opt-manifest
file fails to open, the run exits 1 and the min target nonetheless holds the
full specified concatenation of the min manifest — the min pass finished
before the opt pass began, so only the all target is left partial. -/
theorem bundler_min_complete_on_opt_failure (fs : FS) (p : String)
    (hmin : ∀ f ∈ min_files, (fs f).isSome)
    (hopt : ∃ f ∈ opt_files, fs f = none) :
    binderExit fs = 1
    ∧ finalContent koturno_min_file_path p (binderTrace fs)
        = manifestBytes fs min_files := by
  obtain ⟨g, hg, hgn⟩ := hopt
  exact ⟨(binderExit_one_iff fs).mpr ⟨g, List.mem_append_right _ hg, hgn⟩,
    run_success_min fs hmin p⟩

/-- Witness for C9: the first opt file fails to open, every min file opens
with one line; the run exits 1 with the min target complete. -/
theorem bundler_min_complete_on_opt_failure_witness :
    (∀ f ∈ min_files, (fsFailOpt1 f).isSome)
    ∧ binderExit fsFailOpt1 = 1
    ∧ finalContent koturno_min_file_path "junk" (binderTrace fsFailOpt1)
        = manifestBytes fsFailOpt1 min_files := by
  have h := bundler_min_complete_on_opt_failure fsFailOpt1 "junk" (by decide)
    ⟨"./figure/Material.js", by decide, by decide⟩
  exact ⟨by decide, h.1, h.2⟩

/-- Claim C10 (implicit): a zero-byte input contributes no copied lines but
still gets the unconditional blank separator line, so when every input is
empty each target holds exactly one newline per constituent file and is not
zero bytes. -/
theorem bundler_empty_input_blank_line (fs : FS)
    (h : ∀ f ∈ min_files ++ opt_files, fs f = some "") :
    content "" = ""
    ∧ binderExit fs = 0
    ∧ finalContent koturno_min_file_path "" (binderTrace fs)
        = strJoin (List.replicate min_files.length "\n")
    ∧ finalContent koturno_all_file_path "" (binderTrace fs)
        = strJoin (List.replicate (min_files.length + opt_files.length) "\n")
    ∧ finalContent koturno_min_file_path "" (binderTrace fs) ≠ ""
    ∧ finalContent koturno_all_file_path "" (binderTrace fs) ≠ "" := by
  have hminE : ∀ f ∈ min_files, fs f = some "" :=
    fun f hf => h f (List.mem_append_left _ hf)
  have hoptE : ∀ f ∈ opt_files, fs f = some "" :=
    fun f hf => h f (List.mem_append_right _ hf)
  have hminS : ∀ f ∈ min_files, (fs f).isSome := fun f hf => by rw [hminE f hf]; rfl
  have hoptS : ∀ f ∈ opt_files, (fs f).isSome := fun f hf => by rw [hoptE f hf]; rfl
  have hS : ∀ f ∈ min_files ++ opt_files, (fs f).isSome :=
    fun f hf => by rw [h f hf]; rfl
  have e1 : finalContent koturno_min_file_path "" (binderTrace fs)
      = strJoin (List.replicate min_files.length "\n") := by
    rw [run_success_min fs hminS "", manifestBytes_all_empty fs min_files hminE]
  have e2 : finalContent koturno_all_file_path "" (binderTrace fs)
      = strJoin (List.replicate (min_files.length + opt_files.length) "\n") := by
    rw [run_success_all fs hminS hoptS "", manifestBytes_all_empty fs min_files hminE,
      manifestBytes_all_empty fs opt_files hoptE, List.replicate_add, strJoin_append]
  refine ⟨by decide, (binderExit_zero_iff fs).mpr hS, e1, e2, ?_, ?_⟩
  · rw [e1]; decide
  · rw [e2]; decide

/-- Witness for C10 at the all-empty file system. -/
theorem bundler_empty_input_blank_line_witness :
    (∀ f ∈ min_files ++ opt_files, fsAllEmpty f = some "")
    ∧ (content "" = ""
       ∧ binderExit fsAllEmpty = 0
       ∧ finalContent koturno_min_file_path "" (binderTrace fsAllEmpty)
           = strJoin (List.replicate min_files.length "\n")
       ∧ finalContent koturno_all_file_path "" (binderTrace fsAllEmpty)
           = strJoin (List.replicate (min_files.length + opt_files.length) "\n")
       ∧ finalContent koturno_min_file_path "" (binderTrace fsAllEmpty) ≠ ""
       ∧ finalContent koturno_all_file_path "" (binderTrace fsAllEmpty) ≠ "") :=
  ⟨by decide, bundler_empty_input_blank_line fsAllEmpty (by decide)⟩

end Binder
